import Mathlib

/-!
Shallow embedding of the resilient data-access layer of a multi-tenant
property-management backend: the circuit-breaker fallback cache
(`app/core/circuit_breaker_fallback.py`), the pooled client manager with its
circuit breaker and graceful-degradation client
(`app/core/supabase_connection_pool.py`), the connection tracker and error
classifier (`app/core/async_supabase.py`), and the tenant-namespaced Redis
cache key scheme (`app/core/redis_cache.py`).

Python dict values are modelled by the inductive `PyVal`; timestamps
(`time.time()`) are modelled as integers passed explicitly; stateful methods
become functions from state to state.
-/

/-- Model of a Python JSON-ish value as stored in the fallback caches. -/
inductive PyVal where
  | none : PyVal
  | bool : Bool → PyVal
  | int : Int → PyVal
  | str : String → PyVal
  | list : List PyVal → PyVal
  | dict : List (String × PyVal) → PyVal

/-- Association-list lookup, modelling Python `d.get(k)` / `d[k]`. -/
def alistGet {α : Type} : List (String × α) → String → Option α
  | [], _ => Option.none
  | (k, v) :: rest, key => if k = key then some v else alistGet rest key

/-- Association-list update, modelling Python `d[k] = v` (overwrite or append). -/
def alistSet {α : Type} : List (String × α) → String → α → List (String × α)
  | [], key, v => [(key, v)]
  | (k, w) :: rest, key, v =>
      if k = key then (key, v) :: rest else (k, w) :: alistSet rest key v

/-- Association-list removal, modelling Python `del d[k]`. -/
def alistErase {α : Type} : List (String × α) → String → List (String × α)
  | [], _ => []
  | (k, w) :: rest, key => if k = key then rest else (k, w) :: alistErase rest key

/-- Python truthiness of a value. -/
def PyVal.truthy : PyVal → Bool
  | .none => false
  | .bool b => b
  | .int n => n != 0
  | .str s => !(s == "")
  | .list l => !l.isEmpty
  | .dict d => !d.isEmpty

/-- Python `isinstance(v, dict)`. -/
def PyVal.isDict : PyVal → Bool
  | .dict _ => true
  | _ => false

/-- Python `isinstance(v, list)`. -/
def PyVal.isList : PyVal → Bool
  | .list _ => true
  | _ => false

/-- The elements of a Python list value (meaningful when `isList`). -/
def PyVal.listElems : PyVal → List PyVal
  | .list l => l
  | _ => []

/-- Python `v.get(k)` on a dict value (`None`-ish `Option.none` otherwise). -/
def PyVal.getKey : PyVal → String → Option PyVal
  | .dict d, k => alistGet d k
  | _, _ => Option.none

/-- Python `v[k] = w` on a dict value (no-op on non-dicts, which are
unreachable at the call sites modelled here since only dicts are cached). -/
def PyVal.setKey : PyVal → String → PyVal → PyVal
  | .dict d, k, w => .dict (alistSet d k w)
  | v, _, _ => v

/-- Truthiness of `d.get(k)` where a missing key is `None`. -/
def optTruthy : Option PyVal → Bool
  | some v => v.truthy
  | Option.none => false

/-! ## CircuitBreakerFallback (`circuit_breaker_fallback.py`)

A cache entry is the pair stored by `cache_response`:
`{'data': response, 'timestamp': time.time()}`. -/

/-- One fallback-cache entry: the cached response and its capture time. -/
structure CacheItem where
  data : PyVal
  timestamp : Int

/-- State of `CircuitBreakerFallback`: the response cache and its TTL
(`self.cache_ttl = 300`). -/
structure CircuitBreakerFallback where
  cache : List (String × CacheItem)
  cacheTtl : Int := 300

/-- `CircuitBreakerFallback.get_cached_response`: on a hit within the TTL the
stored dict is annotated in place with `_fallback_cached = True` and
`_cached_at = timestamp` and returned; an entry at or beyond the TTL is
deleted and `None` is returned; a miss returns `None`.  Returns the response
together with the updated service state. -/
def getCachedResponse (cb : CircuitBreakerFallback) (cacheKey : String) (now : Int) :
    Option PyVal × CircuitBreakerFallback :=
  match alistGet cb.cache cacheKey with
  | some cachedItem =>
      if now - cachedItem.timestamp < cb.cacheTtl then
        let annotated :=
          (cachedItem.data.setKey "_fallback_cached" (.bool true)).setKey
            "_cached_at" (.int cachedItem.timestamp)
        (some annotated,
          { cb with cache := alistSet cb.cache cacheKey ⟨annotated, cachedItem.timestamp⟩ })
      else
        (Option.none, { cb with cache := alistErase cb.cache cacheKey })
  | Option.none => (Option.none, cb)

/-- `CircuitBreakerFallback.cache_response`: stores the response under the key
only when it is a dict whose `error` field is absent or falsy. -/
def cacheResponse (cb : CircuitBreakerFallback) (cacheKey : String) (response : PyVal)
    (now : Int) : CircuitBreakerFallback :=
  if response.isDict && !optTruthy (response.getKey "error") then
    { cb with cache := alistSet cb.cache cacheKey ⟨response, now⟩ }
  else
    cb

/-- `CircuitBreakerFallback._get_reservations_fallback`. -/
def reservationsFallback (now : Int) : PyVal :=
  .dict [("data", .list []), ("count", .int 0), ("error", .none),
         ("fallback", .bool true), ("fallback_type", .str "reservations"),
         ("message", .str "Reservations data temporarily unavailable. Showing cached data or empty results."),
         ("retry_after", .int 60), ("timestamp", .int now)]

/-- `CircuitBreakerFallback._get_properties_fallback`. -/
def propertiesFallback (now : Int) : PyVal :=
  .dict [("data", .list []), ("count", .int 0), ("error", .none),
         ("fallback", .bool true), ("fallback_type", .str "properties"),
         ("message", .str "Properties data temporarily unavailable. Showing cached data or empty results."),
         ("retry_after", .int 60), ("timestamp", .int now)]

/-- `CircuitBreakerFallback._get_users_fallback`. -/
def usersFallback (now : Int) : PyVal :=
  .dict [("data", .list []), ("count", .int 0), ("error", .none),
         ("fallback", .bool true), ("fallback_type", .str "users"),
         ("message", .str "User data temporarily unavailable. Please try again in a moment."),
         ("retry_after", .int 30), ("timestamp", .int now)]

/-- `CircuitBreakerFallback._get_health_fallback`. -/
def healthFallback (now : Int) : PyVal :=
  .dict [("status", .str "degraded"), ("fallback", .bool true),
         ("message", .str "Database connections are experiencing issues. Running in degraded mode."),
         ("retry_after", .int 30), ("timestamp", .int now),
         ("details", .dict [("database", .str "degraded"),
                            ("circuit_breaker", .str "open"),
                            ("fallback_active", .bool true)])]

/-- `CircuitBreakerFallback._get_default_fallback`. -/
def defaultFallback (operationType : String) (params : PyVal) (now : Int) : PyVal :=
  .dict [("error", .str ("Service temporarily unavailable for " ++ operationType)),
         ("fallback", .bool true), ("fallback_type", .str "default"),
         ("message", .str "The requested service is temporarily unavailable due to database issues."),
         ("retry_after", .int 60), ("timestamp", .int now),
         ("operation_type", .str operationType), ("params", params)]

/-- `CircuitBreakerFallback._generate_cache_key`.  `json.dumps(params,
sort_keys=True)` followed by Python `hash` is abstracted as an opaque
serialized string supplied by the caller (`Option.none` models a falsy
`params`, for which the key is the bare operation type). -/
def generateCacheKey (operationType : String) (serializedParams : Option String) : String :=
  match serializedParams with
  | some paramStr => operationType ++ ":" ++ paramStr
  | Option.none => operationType

/-- `CircuitBreakerFallback.get_fallback_response`: consult the fallback cache
first (a truthy cached dict is returned as-is), otherwise synthesize the typed
default response for the operation category. -/
def getFallbackResponse (cb : CircuitBreakerFallback) (operationType : String)
    (serializedParams : Option String) (params : PyVal) (now : Int) :
    PyVal × CircuitBreakerFallback :=
  let cacheKey := generateCacheKey operationType serializedParams
  match getCachedResponse cb cacheKey now with
  | (some cached, cb2) =>
      if cached.truthy then (cached, cb2)
      else synthesizeFallback operationType params now cb2
  | (Option.none, cb2) => synthesizeFallback operationType params now cb2
where
  synthesizeFallback (operationType : String) (params : PyVal) (now : Int)
      (cb2 : CircuitBreakerFallback) : PyVal × CircuitBreakerFallback :=
    let lower := String.mk (operationType.data.map Char.toLower)
    if lower = "reservation" ∨ lower = "reservations" then (reservationsFallback now, cb2)
    else if lower = "property" ∨ lower = "properties" then (propertiesFallback now, cb2)
    else if lower = "user" ∨ lower = "users" then (usersFallback now, cb2)
    else if lower = "health" ∨ lower = "status" then (healthFallback now, cb2)
    else (defaultFallback operationType params now, cb2)

/-! ## FallbackResponse (`supabase_connection_pool.py`)

`FallbackResponse.__init__` sets
`self.data = data if isinstance(data, list) else [data] if data else []` and
`self.count = len(self.data) if isinstance(self.data, list) else 1`
(the second conditional's else arm is dead since `self.data` is always a
list). -/

/-- The `data` and `count` attributes of a constructed `FallbackResponse`. -/
structure FallbackResponse where
  data : List PyVal
  count : Nat

/-- `FallbackResponse.__init__` applied to a payload. -/
def mkFallbackResponse (payload : PyVal) : FallbackResponse :=
  let dataList :=
    if payload.isList then payload.listElems
    else if payload.truthy then [payload] else []
  { data := dataList, count := dataList.length }

/-! ## GracefulDegradationTable (`supabase_connection_pool.py`)

The degraded-mode table builder accumulates `query_params` and on `execute`
answers writes with an explicit "writes disabled" response and reads with a
fallback response. -/

/-- The `query_params` dict accumulated by `GracefulDegradationTable`:
each field is present exactly when the corresponding key has been set. -/
structure GDQueryParams where
  selectCols : Option (List String) := Option.none
  insertData : Option PyVal := Option.none
  updateData : Option PyVal := Option.none
  deleteFlag : Bool := false
  filters : List (String × String × PyVal) := []
  limitCount : Option Int := Option.none
  orderBy : Option (String × Bool) := Option.none

/-- One chained builder call on a `GracefulDegradationTable`. -/
inductive TableOp where
  | select (columns : List String)
  | insert (data : PyVal)
  | update (data : PyVal)
  | delete
  | eq (column : String) (value : PyVal)
  | limit (count : Int)
  | order (column : String) (desc : Bool)

/-- Effect of one builder call on `query_params`. -/
def applyTableOp (qp : GDQueryParams) : TableOp → GDQueryParams
  | .select columns => { qp with selectCols := some columns }
  | .insert d => { qp with insertData := some d }
  | .update d => { qp with updateData := some d }
  | .delete => { qp with deleteFlag := true }
  | .eq column value => { qp with filters := qp.filters ++ [("eq", column, value)] }
  | .limit count => { qp with limitCount := some count }
  | .order column desc => { qp with orderBy := some (column, desc) }

/-- The `query_params` built by a chain of calls starting from the fresh
table returned by `GracefulDegradationClient.table`. -/
def buildQuery (ops : List TableOp) : GDQueryParams :=
  ops.foldl applyTableOp {}

/-- The dict returned for write operations while degraded:
`{"error": "Write operations temporarily unavailable", "fallback": True,
"message": ..., "retry_after": 60}`. -/
def writeUnavailableDict : PyVal :=
  .dict [("error", .str "Write operations temporarily unavailable"),
         ("fallback", .bool true),
         ("message", .str "Database is in degraded mode. Write operations are disabled."),
         ("retry_after", .int 60)]

/-- `GracefulDegradationTable.execute`: a query whose `query_params` contain
any of `insert`/`update`/`delete` gets the write-unavailable response; reads
get `get_fallback_response(table_name, query_params)`.  The serialized form
of `query_params` used for the cache key is passed explicitly (see
`generateCacheKey`). -/
def gdTableExecute (tableName : String) (cb : CircuitBreakerFallback)
    (qp : GDQueryParams) (serializedParams : Option String) (paramsVal : PyVal)
    (now : Int) : FallbackResponse × CircuitBreakerFallback :=
  if qp.insertData.isSome || qp.updateData.isSome || qp.deleteFlag then
    (mkFallbackResponse writeUnavailableDict, cb)
  else
    let (resp, cb2) := getFallbackResponse cb tableName serializedParams paramsVal now
    (mkFallbackResponse resp, cb2)

/-! ## SupabaseConnectionPool circuit breaker (`supabase_connection_pool.py`)

`get_client` consults `_circuit_breaker_open` / `_circuit_breaker_opened_at`:
within the 60 s cooldown it yields a `GracefulDegradationClient`; at or after
the cooldown it closes the breaker, zeroes `_failed_operations_count`, and
proceeds to the pool.  A successful pooled operation zeroes the counter; a
failed one increments it and opens the breaker once it reaches the
threshold 10. -/

/-- The circuit-breaker part of the `SupabaseConnectionPool` state. -/
structure PoolBreakerState where
  failedOperationsCount : Nat
  circuitBreakerOpen : Bool
  circuitBreakerOpenedAt : Int

/-- `self._circuit_breaker_threshold = 10`. -/
def circuitBreakerThreshold : Nat := 10

/-- `self._circuit_breaker_timeout = 60`. -/
def circuitBreakerTimeout : Int := 60

/-- Outcome of the caller's operation performed with the yielded client. -/
inductive OpOutcome where
  | success
  | failure

/-- Which kind of client one `get_client` call yields. -/
inductive ServedClient where
  | degraded
  | pooled

/-- One `get_client` call at time `now` whose body completes with `outcome`:
returns the kind of client served and the pool state afterwards.  Operations
on a degraded client never touch the counters (the degraded yield precedes
the `try` block). -/
def getClientStep (s : PoolBreakerState) (now : Int) (outcome : OpOutcome) :
    ServedClient × PoolBreakerState :=
  if s.circuitBreakerOpen && decide (now - s.circuitBreakerOpenedAt < circuitBreakerTimeout) then
    (.degraded, s)
  else
    let s1 :=
      if s.circuitBreakerOpen then
        { s with circuitBreakerOpen := false, failedOperationsCount := 0 }
      else s
    match outcome with
    | .success => (.pooled, { s1 with failedOperationsCount := 0 })
    | .failure =>
        let fc := s1.failedOperationsCount + 1
        if circuitBreakerThreshold ≤ fc then
          (.pooled, { failedOperationsCount := fc, circuitBreakerOpen := true,
                      circuitBreakerOpenedAt := now })
        else
          (.pooled, { s1 with failedOperationsCount := fc })

/-- A run of consecutive failed `get_client` operations at the given times. -/
def runFailures : PoolBreakerState → List Int → PoolBreakerState
  | s, [] => s
  | s, t :: ts => runFailures (getClientStep s t .failure).2 ts

/-! ## Pool acquisition under exhaustion (`supabase_connection_pool.py`)

On a pool-get timeout, `get_client` creates a new client when below
`max_connections` and otherwise raises
`Exception(f"Connection pool exhausted ({max_connections} connections)")`. -/

/-- The exhaustion error message raised by `get_client`. -/
def poolExhaustedMsg (maxConnections : Nat) : String :=
  "Connection pool exhausted (" ++ toString maxConnections ++ " connections)"

/-- The pool-acquisition decision after the queue wait: a client straight
from the pool, a freshly created client, or the exhaustion error.
`poolHasAvailable = false` models the queue staying empty for the configured
timeout (`asyncio.TimeoutError`). -/
def acquireClient (poolHasAvailable : Bool) (numClients maxConnections : Nat) :
    Except String ServedClient :=
  if poolHasAvailable then .ok .pooled
  else if numClients < maxConnections then .ok .pooled
  else .error (poolExhaustedMsg maxConnections)

/-! ## Error classification (`async_supabase.py`, `AsyncTable.execute`)

`error_msg = str(e).lower()`, then substring tests pick the error type. -/

/-- Python `needle in haystack` for strings, on character lists. -/
def containsSub (needle : List Char) : List Char → Bool
  | [] => needle.isPrefixOf []
  | c :: rest => needle.isPrefixOf (c :: rest) || containsSub needle rest

/-- The phrases classified as `connection` errors. -/
def connectionPhrases : List String :=
  ["resource temporarily unavailable", "connection reset", "connection terminated",
   "connection refused", "pool exhausted"]

/-- The phrases classified as `timeout` errors. -/
def timeoutPhrases : List String :=
  ["timeout", "timed out"]

/-- The error taxonomy of the retry logic. -/
inductive ErrType where
  | connection
  | timeout
  | poolExhausted
deriving DecidableEq

/-- The error classifier of `AsyncTable.execute` / `AsyncRPC.execute`
(`.lower()` is modelled as character-wise `Char.toLower`). -/
def classifyErrorMsg (errStr : String) : Option ErrType :=
  let errorMsg := errStr.data.map Char.toLower
  if connectionPhrases.any (fun p => containsSub p.data errorMsg) then some .connection
  else if timeoutPhrases.any (fun p => containsSub p.data errorMsg) then some .timeout
  else if containsSub "pool".data errorMsg && containsSub "exhausted".data errorMsg then
    some .poolExhausted
  else Option.none

/-! ## ConnectionTracker (`async_supabase.py`)

Per-operation retry bookkeeping.  `max_retries` comes from
`settings.database_max_retries` (the config module is external), so it is a
field of the state. -/

/-- State of `ConnectionTracker`. -/
structure ConnectionTracker where
  failedConnections : Nat
  lastFailure : Option Int
  maxRetries : Nat
  failureThreshold : Nat := 5
  throttleDuration : Int := 30
  retryCounts : List (String × Nat)
  operationTimeouts : List (String × Int)

/-- A fresh tracker (`ConnectionTracker.__init__`). -/
def ConnectionTracker.init (maxRetries : Nat) : ConnectionTracker :=
  { failedConnections := 0, lastFailure := Option.none, maxRetries := maxRetries,
    retryCounts := [], operationTimeouts := [] }

/-- `ConnectionTracker.record_failure`: bump the global counter, stamp the
failure time, and increment the per-operation retry count. -/
def recordFailure (tr : ConnectionTracker) (operationId : Option String) (now : Int) :
    ConnectionTracker :=
  let tr := { tr with failedConnections := tr.failedConnections + 1,
                      lastFailure := some now }
  match operationId with
  | some opId =>
      { tr with retryCounts :=
          alistSet tr.retryCounts opId ((alistGet tr.retryCounts opId).getD 0 + 1) }
  | Option.none => tr

/-- `ConnectionTracker.record_success`: decrement the global counter (floored
at 0) and drop the per-operation retry count. -/
def recordSuccess (tr : ConnectionTracker) (operationId : Option String) :
    ConnectionTracker :=
  let tr := { tr with failedConnections := tr.failedConnections - 1 }
  match operationId with
  | some opId => { tr with retryCounts := alistErase tr.retryCounts opId }
  | Option.none => tr

/-- `ConnectionTracker.should_retry`: refuse once the retry count reaches
`max_retries`; below the cap, connection-ish errors are retried via the
dedicated branch and all others via the final comparison. -/
def shouldRetry (tr : ConnectionTracker) (operationId : String)
    (errorType : Option ErrType) : Bool :=
  let retryCount := (alistGet tr.retryCounts operationId).getD 0
  if tr.maxRetries ≤ retryCount then false
  else if errorType = some .connection ∨ errorType = some .timeout ∨
          errorType = some .poolExhausted then true
  else decide (retryCount < tr.maxRetries)

/-- `ConnectionTracker.cleanup_old_operations`: drop every operation whose
entry in `operation_timeouts` is more than 300 s old, removing it from both
per-operation maps. -/
def cleanupOldOperations (tr : ConnectionTracker) (now : Int) : ConnectionTracker :=
  let oldOperations :=
    (tr.operationTimeouts.filter (fun kv => decide (300 < now - kv.2))).map Prod.fst
  { tr with
    retryCounts := oldOperations.foldl (fun m opId => alistErase m opId) tr.retryCounts,
    operationTimeouts :=
      oldOperations.foldl (fun m opId => alistErase m opId) tr.operationTimeouts }

/-! ## Redis cache keys and tenant-wide invalidation (`redis_cache.py`)

`RedisCacheService._make_key` joins `prefix`, `identifier`, a
`tenant:{tenant_id}` part for a truthy tenant id, and the sorted non-`None`
kwargs as `key:value` parts with `":"`.  `delete_pattern` hands the pattern to
Redis `KEYS`, whose glob dialect uses `*`, `?` and literal characters. -/

/-- `":".join(parts)`. -/
def joinColon : List String → String
  | [] => ""
  | [p] => p
  | p :: q :: rest => p ++ ":" ++ joinColon (q :: rest)

/-- `RedisCacheService._make_key`. -/
def makeKey (pre identifier : String) (tenantId : Option String)
    (kwargs : List (String × Option String)) : String :=
  let keyParts := [pre, identifier]
  let keyParts := keyParts ++
    (match tenantId with
     | some t => if t = "" then [] else ["tenant:" ++ t]
     | Option.none => [])
  let sortedKwargs := List.insertionSort (fun a b => a.1 ≤ b.1) kwargs
  let keyParts := keyParts ++
    sortedKwargs.filterMap (fun kv => kv.2.map (fun v => kv.1 ++ ":" ++ v))
  joinColon keyParts

/-- The `*` wildcard tries the rest of the pattern at every suffix. -/
def globStarAux (f : List Char → Bool) : List Char → Bool
  | [] => f []
  | c :: rest => f (c :: rest) || globStarAux f rest

/-- Redis `KEYS`-style glob matching, restricted to the `*`, `?` and literal
constructs; `[...]` character classes and backslash escapes are not modelled,
so results about patterns are stated only for patterns free of `[`, `]` and
`\`, on which this dialect and the full Redis one coincide. -/
def globMatch : List Char → List Char → Bool
  | [], s => s.isEmpty
  | p :: ps, [] => if p = '*' then globStarAux (globMatch ps) [] else false
  | p :: ps, c :: rest =>
      if p = '*' then globStarAux (globMatch ps) (c :: rest)
      else (p == '?' || p == c) && globMatch ps rest

/-- `RedisCacheService.delete_pattern`: remove every stored key matching the
glob pattern (the key set models the Redis keyspace). -/
def deletePattern (keys : List String) (pat : String) : List String :=
  keys.filter fun k => !globMatch pat.data k.data

/-- The pattern used by `GuestPortalCache.invalidate_tenant_cache`:
`f"*:tenant:{tenant_id}*"`. -/
def tenantPattern (tenantId : String) : String :=
  "*:tenant:" ++ tenantId ++ "*"

/-- `GuestPortalCache.invalidate_tenant_cache`. -/
def invalidateTenantCache (keys : List String) (tenantId : String) : List String :=
  deletePattern keys (tenantPattern tenantId)

/-! ## Auxiliary definitions used by the theorems -/

/-- The builder calls whose key lands in `['insert', 'update', 'delete']`. -/
def isWriteOp : TableOp → Bool
  | .insert _ => true
  | .update _ => true
  | .delete => true
  | _ => false

/-- Whether built `query_params` contain any of the write keys, i.e. the
test `any(key in self.query_params for key in ['insert', 'update', 'delete'])`. -/
def hasWriteKey (qp : GDQueryParams) : Bool :=
  qp.insertData.isSome || qp.updateData.isSome || qp.deleteFlag

/-- A fallback-cache state holding one response captured at time 0. -/
def staleCacheState : CircuitBreakerFallback :=
  { cache := [("reservations", ⟨.dict [("data", .list []), ("count", .int 0)], 0⟩)] }

/-- A tracker (max_retries 3) right after `record_failure("op1")` at time 0. -/
def c7Tracker : ConnectionTracker :=
  recordFailure (ConnectionTracker.init 3) (some "op1") 0

/-! ## Helper lemmas about association lists -/

theorem alistGet_alistSet_self {α : Type} (l : List (String × α)) (k : String) (v : α) :
    alistGet (alistSet l k v) k = some v := by
  induction l with
  | nil => simp [alistSet, alistGet]
  | cons hd tl ih =>
      obtain ⟨k2, w⟩ := hd
      by_cases h : k2 = k
      · simp [alistSet, alistGet, h]
      · simp [alistSet, alistGet, h, ih]

theorem alistGet_alistSet_ne {α : Type} (l : List (String × α)) (k k2 : String) (v : α)
    (h : k2 ≠ k) : alistGet (alistSet l k2 v) k = alistGet l k := by
  induction l with
  | nil => simp [alistSet, alistGet, h]
  | cons hd tl ih =>
      obtain ⟨k3, w⟩ := hd
      by_cases h3 : k3 = k2
      · simp [alistSet, alistGet, h3, h]
      · by_cases h4 : k3 = k
        · subst h4
          simp [alistSet, alistGet, h3]
        · simp [alistSet, alistGet, h3, h4, ih]

theorem mem_alistSet {α : Type} (l : List (String × α)) (k : String) (v : α) :
    ∀ e ∈ alistSet l k v, e ∈ l ∨ e = (k, v) := by
  induction l with
  | nil => intro e he; simp [alistSet] at he; right; exact he
  | cons hd tl ih =>
      obtain ⟨k2, w⟩ := hd
      intro e he
      by_cases h : k2 = k
      · simp [alistSet, h] at he
        rcases he with he | he
        · right; simp [he]
        · left; simp [he]
      · simp [alistSet, h] at he
        rcases he with he | he
        · left; simp [he]
        · rcases ih e he with h2 | h2
          · left; simp [h2]
          · right; exact h2

/-! ## Claim C10: `FallbackResponse` payloads are always list-shaped -/

/-- Claim C10: the `data` attribute of a constructed `FallbackResponse` is
always a list — a list payload is kept as-is, a truthy non-list payload is
wrapped as a one-element list, a falsy payload becomes the empty list — and
`count` is the length of that list. -/
theorem fallbackResponse_list_shaped (payload : PyVal) :
    (mkFallbackResponse payload).data =
      (if payload.isList then payload.listElems
       else if payload.truthy then [payload] else []) ∧
    (∀ l, payload = .list l → (mkFallbackResponse payload).data = l) ∧
    (mkFallbackResponse payload).count = (mkFallbackResponse payload).data.length := by
  refine ⟨rfl, ?_, rfl⟩
  intro l hl
  subst hl
  rfl

/-- Claim C10 witness: concrete instances of `fallbackResponse_list_shaped`
for a list payload, a truthy dict payload and a falsy payload. -/
theorem fallbackResponse_list_shaped_witness :
    (mkFallbackResponse (.list [.int 1])).data = [.int 1] ∧
    (mkFallbackResponse (.dict [("a", .int 1)])).data = [.dict [("a", .int 1)]] ∧
    (mkFallbackResponse .none).data = [] ∧
    (mkFallbackResponse (.dict [("a", .int 1)])).count = 1 := by
  refine ⟨(fallbackResponse_list_shaped (.list [.int 1])).2.1 [.int 1] rfl, ?_, ?_, ?_⟩
  · rw [(fallbackResponse_list_shaped (.dict [("a", .int 1)])).1]
    rfl
  · rw [(fallbackResponse_list_shaped .none).1]
    rfl
  · rw [(fallbackResponse_list_shaped (.dict [("a", .int 1)])).2.2,
        (fallbackResponse_list_shaped (.dict [("a", .int 1)])).1]
    rfl

/-! ## Claim C9: only successful, non-error responses enter the fallback cache -/

/-- Claim C9: `cache_response` stores a response only when it is a dict
without a truthy `error` field; caching `{"error": "x"}` leaves the cache
without an entry for the key, so a later `get_cached_response` returns
`None`; and the only-non-error-responses-cached invariant is preserved. -/
theorem cacheResponse_rejects_errors (cb : CircuitBreakerFallback) (key : String)
    (response : PyVal) (now queryTime : Int)
    (hmiss : alistGet cb.cache key = Option.none)
    (hbad : response.isDict = false ∨ optTruthy (response.getKey "error") = true) :
    cacheResponse cb key response now = cb ∧
    (cacheResponse cb key (.dict [("error", .str "x")]) now).cache = cb.cache ∧
    (getCachedResponse (cacheResponse cb key (.dict [("error", .str "x")]) now)
        key queryTime).1 = Option.none ∧
    ((∀ e ∈ cb.cache, optTruthy (e.2.data.getKey "error") = false) →
      ∀ resp, ∀ e ∈ (cacheResponse cb key resp now).cache,
        optTruthy (e.2.data.getKey "error") = false) := by
  have herr : cacheResponse cb key (.dict [("error", .str "x")]) now = cb := by
    simp [cacheResponse, PyVal.isDict, PyVal.getKey, PyVal.truthy, alistGet, optTruthy]
  refine ⟨?_, by rw [herr], by rw [herr]; simp [getCachedResponse, hmiss], ?_⟩
  · rcases hbad with h | h
    · simp [cacheResponse, h]
    · simp [cacheResponse, h]
  · intro hinv resp e he
    unfold cacheResponse at he
    by_cases hok : (resp.isDict && !optTruthy (resp.getKey "error")) = true
    · rw [if_pos hok] at he
      simp only at he
      rcases mem_alistSet cb.cache key ⟨resp, now⟩ e he with h2 | h2
      · exact hinv e h2
      · subst h2
        simp at hok
        exact hok.2
    · rw [if_neg hok] at he
      exact hinv e he

/-- Claim C9 witness: concrete instance of `cacheResponse_rejects_errors`. -/
theorem cacheResponse_rejects_errors_witness :
    cacheResponse ⟨[], 300⟩ "k" (.int 5) 0 = ⟨[], 300⟩ ∧
    (cacheResponse ⟨[], 300⟩ "k" (.dict [("error", .str "x")]) 0).cache = [] ∧
    (getCachedResponse (cacheResponse ⟨[], 300⟩ "k" (.dict [("error", .str "x")]) 0)
        "k" 10).1 = Option.none := by
  obtain ⟨h1, h2, h3, -⟩ :=
    cacheResponse_rejects_errors ⟨[], 300⟩ "k" (.int 5) 0 10 rfl (Or.inl rfl)
  exact ⟨h1, h2, h3⟩

/-! ## Claim C1: TTL expiry in `get_cached_response` -/

/-- Claim C1 counterexample: a fallback-cache entry captured at time 0 and
read at time 400 (age ≥ TTL 300) yields `None` and is deleted — the stored
response is not returned as degraded data, so TTL expiry is a hard cutoff. -/
theorem getCachedResponse_expired_returns_none :
    (getCachedResponse staleCacheState "reservations" 400).1 = Option.none ∧
    (getCachedResponse staleCacheState "reservations" 400).2.cache = [] := by
  exact ⟨rfl, rfl⟩

/-- Claim C1 amended: for a stored entry, `get_cached_response` returns the
response annotated with `_fallback_cached = True` and the original capture
timestamp only while the entry is younger than the TTL; an entry at or past
the TTL is deleted and `None` is returned (expiry is a hard cutoff). -/
theorem getCachedResponse_ttl_is_hard_cutoff (cb : CircuitBreakerFallback) (key : String)
    (item : CacheItem) (now : Int)
    (hhit : alistGet cb.cache key = some item) :
    (cb.cacheTtl ≤ now - item.timestamp →
      getCachedResponse cb key now =
        (Option.none, { cb with cache := alistErase cb.cache key })) ∧
    (now - item.timestamp < cb.cacheTtl →
      ((getCachedResponse cb key now).1 =
        some ((item.data.setKey "_fallback_cached" (.bool true)).setKey
                "_cached_at" (.int item.timestamp)) ∧
       (∀ d, item.data = .dict d →
         optTruthy (((getCachedResponse cb key now).1.getD .none).getKey
             "_fallback_cached") = true ∧
         ((getCachedResponse cb key now).1.getD .none).getKey "_cached_at" =
           some (.int item.timestamp)))) := by
  constructor
  · intro hexp
    unfold getCachedResponse
    rw [hhit]
    simp only
    rw [if_neg (by omega)]
  · intro hfresh
    have hres : (getCachedResponse cb key now).1 =
        some ((item.data.setKey "_fallback_cached" (.bool true)).setKey
                "_cached_at" (.int item.timestamp)) := by
      unfold getCachedResponse
      rw [hhit]
      simp only
      rw [if_pos hfresh]
    refine ⟨hres, ?_⟩
    intro d hd
    rw [hres, hd]
    simp only [Option.getD_some, PyVal.setKey, PyVal.getKey]
    constructor
    · rw [alistGet_alistSet_ne _ _ _ _ (by simp), alistGet_alistSet_self]
      rfl
    · rw [alistGet_alistSet_self]

/-- Claim C1 witness: concrete instance of `getCachedResponse_ttl_is_hard_cutoff`
on a fresh entry (captured at 0, read at 50). -/
theorem getCachedResponse_ttl_witness :
    (getCachedResponse staleCacheState "reservations" 50).1 =
      some (((PyVal.dict [("data", .list []), ("count", .int 0)]).setKey
          "_fallback_cached" (.bool true)).setKey "_cached_at" (.int 0)) ∧
    optTruthy (((getCachedResponse staleCacheState "reservations" 50).1.getD
        .none).getKey "_fallback_cached") = true ∧
    ((getCachedResponse staleCacheState "reservations" 50).1.getD
        .none).getKey "_cached_at" = some (.int 0) := by
  obtain ⟨-, h2⟩ := getCachedResponse_ttl_is_hard_cutoff staleCacheState "reservations"
    ⟨.dict [("data", .list []), ("count", .int 0)], 0⟩ 50 rfl
  obtain ⟨ha, hb⟩ := h2 (by decide)
  obtain ⟨hc, hd⟩ := hb _ rfl
  exact ⟨ha, hc, hd⟩

/-! ## Claim C7: the periodic sweep never collects per-operation records -/

/-- Claim C7 failing input: record a failure for `"op1"` at time 0, run
`cleanup_old_operations` at time 1000; the 1000-second-old record survives in
`retry_counts` because `record_failure` never writes `operation_timeouts`
(which stays empty under every tracker operation), so the sweep removes
nothing. -/
theorem cleanupOldOperations_dead_sweep :
    alistGet (cleanupOldOperations c7Tracker 1000).retryCounts "op1" = some 1 ∧
    (cleanupOldOperations c7Tracker 1000).operationTimeouts = [] ∧
    (∀ tr opId now, (recordFailure tr opId now).operationTimeouts =
      tr.operationTimeouts) ∧
    (∀ tr opId, (recordSuccess tr opId).operationTimeouts = tr.operationTimeouts) ∧
    (∀ f1 f2 f3 f4 f5 f6 now,
      cleanupOldOperations ⟨f1, f2, f3, f4, f5, f6, []⟩ now = ⟨f1, f2, f3, f4, f5, f6, []⟩) := by
  refine ⟨rfl, rfl, ?_, ?_, ?_⟩
  · intro tr opId now
    cases opId <;> rfl
  · intro tr opId
    cases opId <;> rfl
  · intro f1 f2 f3 f4 f5 f6 now
    simp [cleanupOldOperations]

/-! ## Claim C8: `should_retry` is exactly the retry-count cap -/

/-- Claim C8: for every operation and every error type, `should_retry`
returns `true` exactly when the recorded retry count is below `max_retries`;
the always-eligible branch for connection/timeout/pool-exhaustion errors
never overrides the cap. -/
theorem shouldRetry_is_cap (tr : ConnectionTracker) (operationId : String)
    (errorType : Option ErrType) :
    shouldRetry tr operationId errorType =
      decide ((alistGet tr.retryCounts operationId).getD 0 < tr.maxRetries) := by
  unfold shouldRetry
  dsimp only
  by_cases h : tr.maxRetries ≤ (alistGet tr.retryCounts operationId).getD 0
  · rw [if_pos h]
    have hnot : ¬ ((alistGet tr.retryCounts operationId).getD 0 < tr.maxRetries) := by
      omega
    simp [hnot]
  · rw [if_neg h]
    split
    · have hlt : (alistGet tr.retryCounts operationId).getD 0 < tr.maxRetries := by
        omega
      simp [hlt]
    · rfl

/-! ## Claims C2 and C3: circuit-breaker state machine -/

theorem getClientStep_closed_failure (s : PoolBreakerState) (t : Int)
    (hopen : s.circuitBreakerOpen = false) :
    getClientStep s t .failure =
      (if circuitBreakerThreshold ≤ s.failedOperationsCount + 1 then
        (.pooled, { failedOperationsCount := s.failedOperationsCount + 1,
                    circuitBreakerOpen := true, circuitBreakerOpenedAt := t })
      else
        (.pooled, { s with failedOperationsCount := s.failedOperationsCount + 1 })) := by
  simp [getClientStep, hopen]

theorem runFailures_append (s : PoolBreakerState) (ts us : List Int) :
    runFailures s (ts ++ us) = runFailures (runFailures s ts) us := by
  induction ts generalizing s with
  | nil => rfl
  | cons t ts ih => simp [runFailures, ih]

theorem runFailures_stays_closed (ts : List Int) (s : PoolBreakerState)
    (hopen : s.circuitBreakerOpen = false)
    (hlt : s.failedOperationsCount + ts.length < circuitBreakerThreshold) :
    runFailures s ts =
      { s with failedOperationsCount := s.failedOperationsCount + ts.length } := by
  induction ts generalizing s with
  | nil => simp [runFailures]
  | cons t ts ih =>
      rw [runFailures, getClientStep_closed_failure s t hopen]
      rw [if_neg (by simp at hlt ⊢; omega)]
      simp only
      rw [ih _ (by simp [hopen]) (by simp at hlt ⊢; omega)]
      simp
      omega

theorem runFailures_opens (ts : List Int) (t : Int) (s : PoolBreakerState)
    (hopen : s.circuitBreakerOpen = false)
    (hlen : s.failedOperationsCount + ts.length + 1 = circuitBreakerThreshold) :
    runFailures s (ts ++ [t]) =
      { failedOperationsCount := circuitBreakerThreshold, circuitBreakerOpen := true,
        circuitBreakerOpenedAt := t } := by
  rw [runFailures_append,
      runFailures_stays_closed ts s hopen (by omega)]
  rw [runFailures, getClientStep_closed_failure _ t (by simp [hopen])]
  rw [if_pos (by simp; omega)]
  simp only [runFailures]
  rw [hlen]

/-- Claim C2: with the default threshold 10 and the breaker closed, after
exactly 10 consecutive failed operations through `get_client` the breaker
opens and the next call within the cooldown yields the degraded client (after
only 9 failures it does not); a single intervening success resets the
consecutive-failure counter to 0, so 10 new consecutive failures are again
required to re-open. -/
theorem circuitBreaker_opens_after_ten_failures (ts : List Int) (t now probe : Int)
    (o : OpOutcome) (s : PoolBreakerState)
    (h9 : ts.length = 9) (hcool : now - t < circuitBreakerTimeout)
    (hs : s.circuitBreakerOpen = false) :
    ((runFailures ⟨0, false, 0⟩ ts).circuitBreakerOpen = false ∧
     (getClientStep (runFailures ⟨0, false, 0⟩ ts) probe o).1 = .pooled) ∧
    ((runFailures ⟨0, false, 0⟩ (ts ++ [t])).circuitBreakerOpen = true ∧
     (getClientStep (runFailures ⟨0, false, 0⟩ (ts ++ [t])) now o).1 = .degraded) ∧
    ((getClientStep s probe .success).2.failedOperationsCount = 0 ∧
     (getClientStep s probe .success).2.circuitBreakerOpen = false ∧
     (runFailures (getClientStep s probe .success).2 ts).circuitBreakerOpen = false ∧
     (runFailures (getClientStep s probe .success).2 (ts ++ [t])).circuitBreakerOpen =
       true) := by
  have hnine : runFailures ⟨0, false, 0⟩ ts = ⟨9, false, 0⟩ := by
    rw [runFailures_stays_closed ts _ rfl (by simp [h9, circuitBreakerThreshold])]
    simp [h9]
  have hten : runFailures ⟨0, false, 0⟩ (ts ++ [t]) =
      ⟨circuitBreakerThreshold, true, t⟩ :=
    runFailures_opens ts t _ rfl (by simp [h9, circuitBreakerThreshold])
  have hsucc : (getClientStep s probe .success).2 = ⟨0, false, s.circuitBreakerOpenedAt⟩ := by
    simp [getClientStep, hs]
  refine ⟨⟨by rw [hnine], ?_⟩, ⟨by rw [hten], ?_⟩, ?_⟩
  · rw [hnine]
    cases o <;> simp [getClientStep, circuitBreakerThreshold]
  · rw [hten]
    unfold getClientStep
    simp [hcool]
  · rw [hsucc]
    refine ⟨rfl, rfl, ?_, ?_⟩
    · rw [runFailures_stays_closed ts _ rfl (by simp [h9, circuitBreakerThreshold])]
    · rw [runFailures_opens ts t _ rfl (by simp [h9, circuitBreakerThreshold])]

/-- Claim C2 witness: concrete instance of
`circuitBreaker_opens_after_ten_failures` with nine failures at times
1..9, the tenth at 10, a probe call at 12 within the cooldown. -/
theorem circuitBreaker_opens_witness :
    ((runFailures ⟨0, false, 0⟩ [1, 2, 3, 4, 5, 6, 7, 8, 9]).circuitBreakerOpen = false ∧
     (getClientStep (runFailures ⟨0, false, 0⟩ [1, 2, 3, 4, 5, 6, 7, 8, 9]) 11
        .failure).1 = .pooled) ∧
    ((runFailures ⟨0, false, 0⟩ ([1, 2, 3, 4, 5, 6, 7, 8, 9] ++ [10])).circuitBreakerOpen =
       true ∧
     (getClientStep (runFailures ⟨0, false, 0⟩ ([1, 2, 3, 4, 5, 6, 7, 8, 9] ++ [10])) 12
        .failure).1 = .degraded) ∧
    ((getClientStep ⟨7, false, 3⟩ 11 .success).2.failedOperationsCount = 0 ∧
     (getClientStep ⟨7, false, 3⟩ 11 .success).2.circuitBreakerOpen = false ∧
     (runFailures (getClientStep ⟨7, false, 3⟩ 11 .success).2
        [1, 2, 3, 4, 5, 6, 7, 8, 9]).circuitBreakerOpen = false ∧
     (runFailures (getClientStep ⟨7, false, 3⟩ 11 .success).2
        ([1, 2, 3, 4, 5, 6, 7, 8, 9] ++ [10])).circuitBreakerOpen = true) :=
  circuitBreaker_opens_after_ten_failures [1, 2, 3, 4, 5, 6, 7, 8, 9] 10 12 11
    .failure ⟨7, false, 3⟩ rfl (by norm_num [circuitBreakerTimeout]) rfl

/-- Claim C3: while the breaker is open, a `get_client` call strictly within
the 60 s cooldown yields the degraded client with the state unchanged (it
never reaches the pool); the first call at or after cooldown expiry behaves
exactly like a call on the closed breaker with a zeroed failure counter (a
live probe), and leaves the breaker closed. -/
theorem circuitBreaker_cooldown_gates_reset (s : PoolBreakerState) (now : Int)
    (o : OpOutcome) (hopen : s.circuitBreakerOpen = true) :
    (now - s.circuitBreakerOpenedAt < circuitBreakerTimeout →
      getClientStep s now o = (.degraded, s)) ∧
    (circuitBreakerTimeout ≤ now - s.circuitBreakerOpenedAt →
      ((getClientStep s now o).1 = .pooled ∧
       getClientStep s now o =
         getClientStep ⟨0, false, s.circuitBreakerOpenedAt⟩ now o ∧
       (getClientStep s now o).2.circuitBreakerOpen = false)) := by
  constructor
  · intro hcool
    unfold getClientStep
    rw [hopen]
    simp [hcool]
  · intro hexp
    have hstep : getClientStep s now o =
        getClientStep ⟨0, false, s.circuitBreakerOpenedAt⟩ now o := by
      unfold getClientStep
      rw [hopen]
      rw [if_neg (by simp; omega)]
      simp
    refine ⟨?_, hstep, ?_⟩
    · rw [hstep]
      unfold getClientStep
      simp only [Bool.false_and, Bool.and_eq_true, decide_eq_true_eq]
      rw [if_neg (by simp)]
      cases o <;> simp [circuitBreakerThreshold]
    · rw [hstep]
      unfold getClientStep
      simp only [Bool.false_and, Bool.and_eq_true, decide_eq_true_eq]
      rw [if_neg (by simp)]
      cases o <;> simp [circuitBreakerThreshold]

/-! ## Claim C4: degraded-mode writes are explicit failures -/

theorem foldl_applyTableOp_write (ops : List TableOp) (qp : GDQueryParams)
    (h : hasWriteKey qp = true ∨ ∃ op ∈ ops, isWriteOp op = true) :
    hasWriteKey (ops.foldl applyTableOp qp) = true := by
  induction ops generalizing qp with
  | nil =>
      rcases h with h | h
      · exact h
      · simp at h
  | cons op ops ih =>
      rw [List.foldl_cons]
      apply ih
      rcases h with h | h
      · left
        cases op <;> simp_all [hasWriteKey, applyTableOp]
      · obtain ⟨op2, hmem, hw⟩ := h
        rcases List.mem_cons.mp hmem with rfl | hmem2
        · left
          cases op2 <;> simp_all [hasWriteKey, applyTableOp, isWriteOp]
        · right
          exact ⟨op2, hmem2, hw⟩

/-- Claim C4: in degraded mode, every table query built with an insert,
update, or delete returns on `execute` an explicit fallback response whose
payload carries the "Write operations temporarily unavailable" error, the
`fallback: True` marker and a `retry_after` hint; the error field is truthy,
so a degraded write is never reported as a success, and the response is
returned (never silently dropped). -/
theorem degradedWrite_explicit_failure (ops : List TableOp) (tableName : String)
    (cb : CircuitBreakerFallback) (serializedParams : Option String)
    (paramsVal : PyVal) (now : Int)
    (hwrite : ∃ op ∈ ops, isWriteOp op = true) :
    (gdTableExecute tableName cb (buildQuery ops) serializedParams paramsVal now).1 =
      mkFallbackResponse writeUnavailableDict ∧
    (gdTableExecute tableName cb (buildQuery ops) serializedParams paramsVal
        now).1.data = [writeUnavailableDict] ∧
    writeUnavailableDict.getKey "error" =
      some (.str "Write operations temporarily unavailable") ∧
    writeUnavailableDict.getKey "fallback" = some (.bool true) ∧
    writeUnavailableDict.getKey "retry_after" = some (.int 60) ∧
    optTruthy (writeUnavailableDict.getKey "error") = true := by
  have hflag : hasWriteKey (buildQuery ops) = true :=
    foldl_applyTableOp_write ops {} (Or.inr hwrite)
  have hexec : (gdTableExecute tableName cb (buildQuery ops) serializedParams paramsVal
      now).1 = mkFallbackResponse writeUnavailableDict := by
    unfold gdTableExecute
    rw [if_pos (by simpa [hasWriteKey] using hflag)]
  exact ⟨hexec, by rw [hexec]; rfl, rfl, rfl, rfl, rfl⟩

/-- Claim C4 witness: concrete instance of `degradedWrite_explicit_failure`
for a `delete()` query on an empty fallback service. -/
theorem degradedWrite_explicit_witness :
    (gdTableExecute "users" ⟨[], 300⟩ (buildQuery [.delete]) Option.none (.dict [])
        0).1 = mkFallbackResponse writeUnavailableDict ∧
    (gdTableExecute "users" ⟨[], 300⟩ (buildQuery [.delete]) Option.none (.dict [])
        0).1.data = [writeUnavailableDict] ∧
    writeUnavailableDict.getKey "error" =
      some (.str "Write operations temporarily unavailable") ∧
    writeUnavailableDict.getKey "fallback" = some (.bool true) ∧
    writeUnavailableDict.getKey "retry_after" = some (.int 60) ∧
    optTruthy (writeUnavailableDict.getKey "error") = true :=
  degradedWrite_explicit_failure [.delete] "users" ⟨[], 300⟩ Option.none (.dict []) 0
    ⟨.delete, List.mem_singleton.mpr rfl, rfl⟩

/-! ## Claim C6: classification of the pool-exhaustion error -/

theorem containsSub_iff (needle haystack : List Char) :
    containsSub needle haystack = true ↔ needle <:+: haystack := by
  induction haystack with
  | nil => simp [containsSub, List.isPrefixOf_iff_prefix]
  | cons c rest ih =>
      rw [containsSub, List.infix_cons_iff]
      simp [ List.isPrefixOf_iff_prefix, ih]

theorem poolExhaustedMsg_contains_phrase (maxConnections : Nat) :
    containsSub "pool exhausted".data
      ((poolExhaustedMsg maxConnections).data.map Char.toLower) = true := by
  rw [containsSub_iff]
  have hdata : (poolExhaustedMsg maxConnections).data =
      "Connection pool exhausted (".data ++
        ((toString maxConnections).data ++ " connections)".data) := by
    simp [poolExhaustedMsg]
  rw [hdata, List.map_append]
  have hlow : ("Connection pool exhausted (".data).map Char.toLower =
      "connection ".data ++ "pool exhausted".data ++ " (".data := by decide
  rw [hlow]
  exact ⟨"connection ".data,
    " (".data ++ ((toString maxConnections).data ++ " connections)".data).map Char.toLower,
    by simp⟩

theorem classify_poolExhaustedMsg (maxConnections : Nat) :
    classifyErrorMsg (poolExhaustedMsg maxConnections) = some .connection := by
  unfold classifyErrorMsg
  dsimp only
  rw [if_pos ?hc]
  case hc =>
    simp only [connectionPhrases, List.any_cons, List.any_nil, Bool.or_eq_true]
    have h := poolExhaustedMsg_contains_phrase maxConnections
    tauto

/-- Claim C6 counterexample: the message the pool actually raises on
exhaustion (default max 10) is classified as `connection`, not
`pool_exhausted` — the contiguous phrase "pool exhausted" sits in the
connection phrase list, shadowing the dedicated `pool_exhausted` branch. -/
theorem poolExhausted_classification_counterexample :
    classifyErrorMsg "Connection pool exhausted (10 connections)" = some .connection ∧
    some ErrType.connection ≠ some ErrType.poolExhausted := by
  exact ⟨by decide, by decide⟩

/-- Claim C6 amended: with the pool queue empty for the timeout and the
client count at `max_connections`, acquisition fails with the pool-exhausted
error message instead of blocking, but the error classifier labels that
message `connection` (because "pool exhausted" is among the connection
phrases), never `pool_exhausted`. -/
theorem poolExhaustion_fails_fast_as_connection (numClients maxConnections : Nat)
    (hfull : maxConnections ≤ numClients) :
    acquireClient false numClients maxConnections =
      .error (poolExhaustedMsg maxConnections) ∧
    classifyErrorMsg (poolExhaustedMsg maxConnections) = some .connection ∧
    classifyErrorMsg (poolExhaustedMsg maxConnections) ≠ some .poolExhausted := by
  refine ⟨?_, classify_poolExhaustedMsg maxConnections, ?_⟩
  · unfold acquireClient
    rw [if_neg (by simp), if_neg (by omega)]
  · rw [classify_poolExhaustedMsg maxConnections]
    simp

/-- Claim C6 witness: concrete instance of
`poolExhaustion_fails_fast_as_connection` at the default pool size 10. -/
theorem poolExhaustion_fails_fast_witness :
    acquireClient false 10 10 = .error (poolExhaustedMsg 10) ∧
    classifyErrorMsg (poolExhaustedMsg 10) = some .connection ∧
    classifyErrorMsg (poolExhaustedMsg 10) ≠ some .poolExhausted :=
  poolExhaustion_fails_fast_as_connection 10 10 (Nat.le_refl 10)

/-! ## Claim C5: tenant-wide invalidation and tenant isolation

The Redis glob pattern `*:tenant:{tid}*` matches exactly the keys containing
`:tenant:{tid}` as a substring, which we establish first. -/

/-- A pattern consisting only of literal characters (no `*`, no `?`). -/
def noWild (l : List Char) : Prop := ∀ c ∈ l, c ≠ '*' ∧ c ≠ '?'

/-- Characters that are plain data for Redis `KEYS` globbing: none of the
metacharacters `*`, `?`, `[`, `]`, `\`.  An id made of such characters turns
the tenant pattern into a pure literal-and-`*` pattern, on which `globMatch`
agrees with full Redis glob matching. -/
def redisPlain (l : List Char) : Prop :=
  ∀ c ∈ l, c ≠ '*' ∧ c ≠ '?' ∧ c ≠ '[' ∧ c ≠ ']' ∧ c ≠ '\\'

/-- `":"`-join on character-list atoms, mirroring `joinColon` on `.data`. -/
def joinAtoms : List (List Char) → List Char
  | [] => []
  | [a] => a
  | a :: b :: r => a ++ ':' :: joinAtoms (b :: r)

/-- The kwarg pairs that survive the `None` filter, in sorted order. -/
def kwPairs (kwargs : List (String × Option String)) : List (String × String) :=
  (List.insertionSort (fun a b => a.1 ≤ b.1) kwargs).filterMap
    (fun kv => kv.2.map (fun v => (kv.1, v)))

/-- The colon-free atoms contributed by kwarg pairs: `key`, `value`, ... -/
def pairAtoms : List (String × String) → List (List Char)
  | [] => []
  | (k, v) :: r => k.data :: v.data :: pairAtoms r

/-- Along a list of colon-free atoms, no atom equal to `"tenant"` is
immediately followed by an atom that `t` is a prefix of — exactly the
condition under which `:tenant:{t}` cannot occur at any `:`-boundary. -/
def tenantSafe (t : List Char) : List (List Char) → Prop
  | [] => True
  | [_] => True
  | a :: b :: r => (a = "tenant".data → ¬ t <+: b) ∧ tenantSafe t (b :: r)

theorem globStarAux_iff (f : List Char → Bool) (s : List Char) :
    globStarAux f s = true ↔ ∃ s2, s2 <:+ s ∧ f s2 = true := by
  induction s with
  | nil =>
      simp only [globStarAux]
      constructor
      · intro h
        exact ⟨[], List.suffix_refl [], h⟩
      · rintro ⟨s2, hs2, h⟩
        rw [List.suffix_nil.mp hs2] at h
        exact h
  | cons c rest ih =>
      simp only [globStarAux, Bool.or_eq_true, ih]
      constructor
      · rintro (h | ⟨s2, hs2, h⟩)
        · exact ⟨c :: rest, List.suffix_refl _, h⟩
        · exact ⟨s2, hs2.trans (List.suffix_cons c rest), h⟩
      · rintro ⟨s2, hs2, h⟩
        rcases List.suffix_cons_iff.mp hs2 with rfl | hs2
        · exact Or.inl h
        · exact Or.inr ⟨s2, hs2, h⟩

theorem globMatch_star (ps : List Char) (s : List Char) :
    globMatch ('*' :: ps) s = globStarAux (globMatch ps) s := by
  cases s <;> simp [globMatch]

theorem globMatch_star_iff (ps : List Char) (s : List Char) :
    globMatch ('*' :: ps) s = true ↔ ∃ s2, s2 <:+ s ∧ globMatch ps s2 = true := by
  rw [globMatch_star, globStarAux_iff]

theorem globMatch_lit_star_iff (lits : List Char) (hw : noWild lits) :
    ∀ s : List Char, (globMatch (lits ++ ['*']) s = true ↔ lits <+: s) := by
  induction lits with
  | nil =>
      intro s
      have hstar : globMatch ['*'] s = true := by
        rw [(by rfl : (['*'] : List Char) = '*' :: []), globMatch_star_iff]
        exact ⟨[], List.nil_suffix, rfl⟩
      simp [hstar]
  | cons c lits ih =>
      intro s
      have hc : c ≠ '*' ∧ c ≠ '?' := hw c (by simp)
      have hlits : noWild lits := fun d hd => hw d (by simp [hd])
      cases s with
      | nil =>
          rw [List.cons_append, globMatch, if_neg hc.1]
          simp
      | cons d rest =>
          rw [List.cons_append, globMatch, if_neg hc.1]
          have hq : (c == '?') = false := by simp [hc.2]
          simp only [hq, Bool.false_or, Bool.and_eq_true, beq_iff_eq,
            List.cons_prefix_cons, ih hlits rest]

theorem globMatch_infix_iff (p s : List Char) (hw : noWild p) :
    globMatch ('*' :: (p ++ ['*'])) s = true ↔ p <:+: s := by
  rw [globMatch_star_iff]
  constructor
  · rintro ⟨s2, hs2, hm⟩
    exact List.infix_iff_prefix_suffix.mpr ⟨s2, (globMatch_lit_star_iff p hw s2).mp hm, hs2⟩
  · intro hinf
    obtain ⟨s2, hp, hs2⟩ := List.infix_iff_prefix_suffix.mp hinf
    exact ⟨s2, hs2, (globMatch_lit_star_iff p hw s2).mpr hp⟩

theorem tenantPattern_data (t : String) :
    (tenantPattern t).data = '*' :: ((":tenant:".data ++ t.data) ++ ['*']) := by
  simp [tenantPattern]

theorem tenantPattern_match_iff (t : String) (key : List Char) (hw : noWild t.data) :
    globMatch (tenantPattern t).data key = true ↔ (":tenant:".data ++ t.data) <:+: key := by
  rw [tenantPattern_data]
  apply globMatch_infix_iff
  have hfixed : ∀ c ∈ ":tenant:".data, c ≠ '*' ∧ c ≠ '?' := by decide
  intro c hc
  rcases List.mem_append.mp hc with h | h
  · exact hfixed c h
  · exact hw c h

theorem joinColon_extend (a : String) (l : List String) :
    ∃ tail, (joinColon (a :: l)).data = a.data ++ tail := by
  cases l with
  | nil => exact ⟨[], by simp [joinColon]⟩
  | cons b r => exact ⟨':' :: (joinColon (b :: r)).data, by simp [joinColon]⟩

theorem makeKey_data (pre ident t : String) (kwargs : List (String × Option String))
    (ht : t ≠ "") :
    ∃ tail, (makeKey pre ident (some t) kwargs).data =
      pre.data ++ ':' :: (ident.data ++ ':' :: ("tenant".data ++ ':' :: (t.data ++ tail))) ∧
      (kwargs = [] → tail = []) := by
  unfold makeKey
  dsimp only
  rw [if_neg ht]
  simp only [List.cons_append, List.nil_append]
  obtain ⟨tail, htail⟩ := joinColon_extend ("tenant:" ++ t)
    ((List.insertionSort (fun a b => a.1 ≤ b.1) kwargs).filterMap
      (fun kv => kv.2.map (fun v => kv.1 ++ ":" ++ v)))
  refine ⟨tail, ?_, ?_⟩
  · rw [joinColon, joinColon]
    simp only [String.data_append, htail]
    simp
  · intro hk
    subst hk
    simp only [List.insertionSort, List.filterMap_nil] at htail
    rw [joinColon] at htail
    simpa using htail.symm

theorem infix_colon_skip (P rest m : List Char) (hP : ':' ∉ P) :
    (':' :: m) <:+: (P ++ ':' :: rest) ↔ (':' :: m) <:+: (':' :: rest) := by
  induction P with
  | nil => simp
  | cons a P ih =>
      have ha : a ≠ ':' := fun h => hP (by simp [h])
      have hP2 : ':' ∉ P := fun h => hP (by simp [h])
      rw [List.cons_append, List.infix_cons_iff]
      constructor
      · rintro (hpre | hinf)
        · rw [List.cons_prefix_cons] at hpre
          exact absurd hpre.1.symm ha
        · exact (ih hP2).mp hinf
      · intro h
        exact Or.inr ((ih hP2).mpr h)

theorem prefix_colon_align (A : List Char) : ∀ (B r r2 : List Char), ':' ∉ A → ':' ∉ B →
    (A ++ ':' :: r) <+: (B ++ ':' :: r2) → A = B ∧ r <+: r2 := by
  induction A with
  | nil =>
      intro B r r2 _ hB h
      cases B with
      | nil =>
          rw [List.nil_append, List.nil_append, List.cons_prefix_cons] at h
          exact ⟨rfl, h.2⟩
      | cons b B2 =>
          rw [List.nil_append, List.cons_append, List.cons_prefix_cons] at h
          exact absurd (h.1 ▸ List.mem_cons_self b B2) hB
  | cons a A2 ih =>
      intro B r r2 hA hB h
      cases B with
      | nil =>
          rw [List.cons_append, List.nil_append, List.cons_prefix_cons] at h
          exact absurd (h.1 ▸ List.mem_cons_self a A2) hA
      | cons b B2 =>
          rw [List.cons_append, List.cons_append, List.cons_prefix_cons] at h
          obtain ⟨rfl, h2⟩ := h
          have hA2 : ':' ∉ A2 := fun hx => hA (by simp [hx])
          have hB2 : ':' ∉ B2 := fun hx => hB (by simp [hx])
          obtain ⟨heq, hr⟩ := ih B2 r r2 hA2 hB2 h2
          exact ⟨by rw [heq], hr⟩

theorem redisPlain_noWild (l : List Char) (h : redisPlain l) : noWild l :=
  fun c hc => ⟨(h c hc).1, (h c hc).2.1⟩

theorem joinAtoms_cons (x : List Char) (l : List (List Char)) (h : l ≠ []) :
    joinAtoms (x :: l) = x ++ ':' :: joinAtoms l := by
  cases l with
  | nil => exact absurd rfl h
  | cons b r => rfl

theorem joinColon_data (l : List String) :
    (joinColon l).data = joinAtoms (l.map String.data) := by
  induction l with
  | nil => rfl
  | cons a r ih =>
      cases r with
      | nil => rfl
      | cons b r2 =>
          rw [joinColon, List.map_cons, joinAtoms_cons _ _ (by simp)]
          have hcolon : (":" : String).data = [':'] := rfl
          simp [String.data_append, hcolon, ih]

theorem joinAtoms_split (xs : List (List Char)) (a b : List Char)
    (ys : List (List Char)) :
    joinAtoms (xs ++ (a ++ ':' :: b) :: ys) = joinAtoms (xs ++ a :: b :: ys) := by
  induction xs with
  | nil =>
      cases ys with
      | nil => rfl
      | cons y r =>
          rw [List.nil_append, List.nil_append,
              joinAtoms_cons _ _ (by simp), joinAtoms_cons a _ (by simp),
              joinAtoms_cons b _ (by simp)]
          simp
  | cons x xs ih =>
      rw [List.cons_append, List.cons_append,
          joinAtoms_cons _ _ (by simp), joinAtoms_cons _ _ (by simp), ih]

theorem filterMap_pair_split (l : List (String × Option String)) :
    l.filterMap (fun kv => kv.2.map (fun v => kv.1 ++ ":" ++ v)) =
      (l.filterMap (fun kv => kv.2.map (fun v => (kv.1, v)))).map
        (fun kv => kv.1 ++ ":" ++ kv.2) := by
  induction l with
  | nil => rfl
  | cons kv r ih =>
      cases h : kv.2 with
      | none => simp [List.filterMap_cons, h, ih]
      | some v => simp [List.filterMap_cons, h, ih]

theorem joinAtoms_pairParts (pairs : List (String × String)) :
    ∀ front : List (List Char),
      joinAtoms (front ++ (pairs.map (fun kv => (kv.1 ++ ":" ++ kv.2).data))) =
        joinAtoms (front ++ pairAtoms pairs) := by
  induction pairs with
  | nil => intro front; rfl
  | cons kv r ih =>
      intro front
      obtain ⟨k, v⟩ := kv
      have hsplit : (k ++ ":" ++ v).data = k.data ++ ':' :: v.data := by
        have hcolon : (":" : String).data = [':'] := rfl
        simp [String.data_append, hcolon]
      rw [List.map_cons, hsplit, joinAtoms_split front k.data v.data _]
      have h2 := ih (front ++ [k.data, v.data])
      simp only [List.append_assoc, List.cons_append, List.nil_append] at h2
      exact h2

theorem mem_kwPairs (kwargs : List (String × Option String)) :
    ∀ kv ∈ kwPairs kwargs, (kv.1, some kv.2) ∈ kwargs := by
  intro kv h
  unfold kwPairs at h
  rw [List.mem_filterMap] at h
  obtain ⟨x, hx, hfx⟩ := h
  have hx2 : x ∈ kwargs :=
    (List.perm_insertionSort (fun a b => a.1 ≤ b.1) kwargs).mem_iff.mp hx
  cases h2 : x.2 with
  | none => rw [h2] at hfx; simp at hfx
  | some v =>
      rw [h2] at hfx
      simp only [Option.map_some', Option.some.injEq] at hfx
      rw [← hfx]
      have hxeta : x = (x.1, some v) := by rw [← h2]
      exact hxeta ▸ hx2

theorem mem_pairAtoms (pairs : List (String × String)) :
    ∀ a ∈ pairAtoms pairs, ∃ kv ∈ pairs, a = kv.1.data ∨ a = kv.2.data := by
  induction pairs with
  | nil => intro a ha; simp [pairAtoms] at ha
  | cons kv r ih =>
      obtain ⟨k, v⟩ := kv
      intro a ha
      simp only [pairAtoms, List.mem_cons] at ha
      rcases ha with rfl | rfl | ha
      · exact ⟨(k, v), by simp, Or.inl rfl⟩
      · exact ⟨(k, v), by simp, Or.inr rfl⟩
      · obtain ⟨kv2, hm, hor⟩ := ih a ha
        exact ⟨kv2, by simp [hm], hor⟩

theorem makeKey_data_atoms (pre ident t : String)
    (kwargs : List (String × Option String)) (ht : t ≠ "") :
    (makeKey pre ident (some t) kwargs).data =
      joinAtoms ([pre.data, ident.data, "tenant".data, t.data] ++
        pairAtoms (kwPairs kwargs)) := by
  unfold makeKey kwPairs
  dsimp only
  rw [if_neg ht]
  simp only [List.cons_append, List.nil_append]
  rw [joinColon_data, filterMap_pair_split]
  simp only [List.map_cons, List.map_map, Function.comp]
  have hsplitT : ("tenant:" ++ t).data = "tenant".data ++ ':' :: t.data := by
    have hcolon : ("tenant:" : String).data = "tenant".data ++ [':'] := rfl
    simp [String.data_append, hcolon]
  rw [hsplitT]
  change joinAtoms ([pre.data, ident.data] ++ ("tenant".data ++ ':' :: t.data) :: _) = _
  rw [joinAtoms_split]
  exact joinAtoms_pairParts _ [pre.data, ident.data, "tenant".data, t.data]

theorem prefix_colonfree_split : ∀ t : List Char, ':' ∉ t →
    ∀ b s : List Char, t <+: (b ++ ':' :: s) → t <+: b := by
  intro t
  induction t with
  | nil => intro _ b s _; exact List.nil_prefix
  | cons c t2 ih =>
      intro ht b s h
      have hc : c ≠ ':' := fun hx => ht (by simp [hx])
      cases b with
      | nil =>
          rw [List.nil_append, List.cons_prefix_cons] at h
          exact absurd h.1 hc
      | cons d b2 =>
          rw [List.cons_append, List.cons_prefix_cons] at h
          rw [List.cons_prefix_cons]
          exact ⟨h.1, ih (fun hx => ht (by simp [hx])) b2 s h.2⟩

theorem tenantSafe_of_no_tenant (t : List Char) (l : List (List Char))
    (h : ∀ a ∈ l, a ≠ "tenant".data) : tenantSafe t l := by
  induction l with
  | nil => trivial
  | cons a r ih =>
      cases r with
      | nil => trivial
      | cons b r2 =>
          exact ⟨fun ha => absurd ha (h a (by simp)),
            ih (fun x hx => h x (by simp [hx]))⟩

theorem pattern_not_in_joined (t : List Char) (ht : ':' ∉ t) :
    ∀ atoms : List (List Char), (∀ a ∈ atoms, ':' ∉ a) → tenantSafe t atoms →
      ¬ (':' :: ("tenant".data ++ ':' :: t)) <:+: (':' :: joinAtoms atoms) := by
  intro atoms
  induction atoms with
  | nil =>
      intro _ _ h
      rcases List.infix_cons_iff.mp h with hp | hinf
      · rw [List.cons_prefix_cons] at hp
        have := hp.2
        simp [joinAtoms] at this
      · simp [joinAtoms] at hinf
  | cons a rest ih =>
      intro hcf hsafe h
      have ha : ':' ∉ a := hcf a (by simp)
      cases rest with
      | nil =>
          rcases List.infix_cons_iff.mp h with hp | hinf
          · rw [List.cons_prefix_cons] at hp
            exact ha (hp.2.subset (by simp))
          · exact ha (hinf.subset (by simp))
      | cons b r =>
          rw [joinAtoms_cons a (b :: r) (by simp)] at h
          rcases List.infix_cons_iff.mp h with hp | hinf
          · rw [List.cons_prefix_cons] at hp
            obtain ⟨heq, hpr⟩ := prefix_colon_align "tenant".data a t
              (joinAtoms (b :: r)) (by decide) ha hp.2
            have htb : t <+: b := by
              cases r with
              | nil => exact hpr
              | cons y r2 =>
                  rw [joinAtoms_cons b (y :: r2) (by simp)] at hpr
                  exact prefix_colonfree_split t ht b _ hpr
            exact hsafe.1 heq.symm htb
          · rw [infix_colon_skip a _ _ ha] at hinf
            exact ih (fun x hx => hcf x (by simp [hx])) hsafe.2 hinf

theorem tenant_key_not_matched (pre ident t t2 : String)
    (kwargs2 : List (String × Option String))
    (hpre : ':' ∉ pre.data) (hident : ':' ∉ ident.data) (hidentNe : ident ≠ "tenant")
    (ht : ':' ∉ t.data) (ht2 : ':' ∉ t2.data) (ht2ne : t2 ≠ "") (ht2nt : t2 ≠ "tenant")
    (hkw : ∀ kv ∈ kwargs2, ':' ∉ kv.1.data ∧ kv.1 ≠ "tenant" ∧
      ∀ v, kv.2 = some v → ':' ∉ v.data ∧ v ≠ "tenant")
    (hnp : ¬ t.data <+: t2.data) :
    ¬ (":tenant:".data ++ t.data) <:+: (makeKey pre ident (some t2) kwargs2).data := by
  intro hinf
  rw [makeKey_data_atoms pre ident t2 kwargs2 ht2ne] at hinf
  have hq : (":tenant:".data ++ t.data) = ':' :: ("tenant".data ++ ':' :: t.data) := by
    simp
  have hkwmem : ∀ a ∈ pairAtoms (kwPairs kwargs2),
      ':' ∉ a ∧ a ≠ "tenant".data := by
    intro a hmem
    obtain ⟨kv, hkv, hor⟩ := mem_pairAtoms (kwPairs kwargs2) a hmem
    have hk := hkw (kv.1, some kv.2) (mem_kwPairs kwargs2 kv hkv)
    obtain ⟨hk1, hk2, hk3⟩ := hk
    obtain ⟨hv1, hv2⟩ := hk3 kv.2 rfl
    rcases hor with rfl | rfl
    · exact ⟨hk1, fun hx => hk2 (String.ext hx)⟩
    · exact ⟨hv1, fun hx => hv2 (String.ext hx)⟩
  have hrest : joinAtoms ([pre.data, ident.data, "tenant".data, t2.data] ++
      pairAtoms (kwPairs kwargs2)) =
      pre.data ++ ':' :: joinAtoms ([ident.data, "tenant".data, t2.data] ++
        pairAtoms (kwPairs kwargs2)) := by
    rw [List.cons_append, joinAtoms_cons _ _ (by simp)]
  rw [hrest, hq, infix_colon_skip _ _ _ hpre] at hinf
  have htenant : ':' ∉ "tenant".data := by decide
  refine pattern_not_in_joined t.data ht
    ([ident.data, "tenant".data, t2.data] ++ pairAtoms (kwPairs kwargs2)) ?_ ?_ hinf
  · intro x hx
    simp only [List.cons_append, List.nil_append, List.mem_cons] at hx
    rcases hx with rfl | rfl | rfl | hx
    · exact hident
    · exact htenant
    · exact ht2
    · exact (hkwmem x hx).1
  · refine ⟨fun hx => absurd (String.ext hx) hidentNe, fun _ => hnp,
      tenantSafe_of_no_tenant t.data _ ?_⟩
    intro x hx
    simp only [List.mem_cons] at hx
    rcases hx with rfl | hx
    · exact fun hc => ht2nt (String.ext hc)
    · exact (hkwmem x hx).2

theorem makeKey_matched_by_tenantPattern (pre ident t : String)
    (kwargs : List (String × Option String)) (hw : noWild t.data) (ht : t ≠ "") :
    globMatch (tenantPattern t).data (makeKey pre ident (some t) kwargs).data = true := by
  rw [tenantPattern_match_iff t _ hw]
  obtain ⟨tail, hkey, -⟩ := makeKey_data pre ident t kwargs ht
  rw [hkey]
  refine ⟨pre.data ++ ':' :: ident.data, tail, ?_⟩
  have hlit : ":tenant:".data = ':' :: ("tenant".data ++ [':']) := rfl
  rw [hlit]
  simp

/-- Claim C5 counterexample: tenant-wide invalidation for tenant `"a"` also
deletes the cached key of the distinct tenant `"ab"` whose id extends `"a"`:
the glob pattern `*:tenant:a*` matches `templates:all:tenant:ab`, so
isolation fails for prefix pairs of tenant ids. -/
theorem tenantInvalidation_prefix_counterexample :
    makeKey "templates" "all" (some "ab") [] = "templates:all:tenant:ab" ∧
    globMatch (tenantPattern "a").data "templates:all:tenant:ab".data = true ∧
    invalidateTenantCache ["templates:all:tenant:ab"] "a" = [] := by
  refine ⟨by decide, by decide, by decide⟩

/-- Claim C5 amended: `invalidate_tenant_cache tid` removes every key built
in tenant `tid`'s namespace (any prefix, identifier and kwargs); and a key of
a distinct tenant `tidOther` — built with any prefix, identifier and kwargs —
survives provided `tid` is not a string prefix of `tidOther` (ids and kwarg
names/values colon-free and not the literal `"tenant"`, identifier not the
literal `"tenant"`, the invalidated id free of glob metacharacters).  When
one tenant id is a string prefix of the other the surviving-keys guarantee
fails, as the counterexample shows. -/
theorem tenantInvalidation_amended (pre ident tid tidOther : String)
    (keys : List String)
    (kwargs kwargsOther : List (String × Option String))
    (hpre : ':' ∉ pre.data) (hident : ':' ∉ ident.data) (hidentNe : ident ≠ "tenant")
    (ht : ':' ∉ tid.data) (htO : ':' ∉ tidOther.data)
    (htOne : tidOther ≠ "") (htOnt : tidOther ≠ "tenant")
    (hkw : ∀ kv ∈ kwargsOther, ':' ∉ kv.1.data ∧ kv.1 ≠ "tenant" ∧
      ∀ v, kv.2 = some v → ':' ∉ v.data ∧ v ≠ "tenant")
    (hplain : redisPlain tid.data)
    (hnp : ¬ tid.data <+: tidOther.data) :
    makeKey pre ident (some tid) kwargs ∉ invalidateTenantCache keys tid ∧
    (makeKey pre ident (some tidOther) kwargsOther ∈ keys →
      makeKey pre ident (some tidOther) kwargsOther ∈
        invalidateTenantCache keys tid) := by
  have hw : noWild tid.data := redisPlain_noWild tid.data hplain
  have htid : tid ≠ "" := by
    intro h
    apply hnp
    rw [h]
    exact List.nil_prefix
  constructor
  · intro hmem
    rw [invalidateTenantCache, deletePattern, List.mem_filter] at hmem
    rw [makeKey_matched_by_tenantPattern pre ident tid kwargs hw htid] at hmem
    simp at hmem
  · intro hmem
    rw [invalidateTenantCache, deletePattern, List.mem_filter]
    refine ⟨hmem, ?_⟩
    have hnm : ¬ globMatch (tenantPattern tid).data
        (makeKey pre ident (some tidOther) kwargsOther).data = true := by
      rw [tenantPattern_match_iff tid _ hw]
      exact tenant_key_not_matched pre ident tid tidOther kwargsOther hpre hident
        hidentNe ht htO htOne htOnt hkw hnp
    simp only [Bool.not_eq_true] at hnm
    simp [hnm]

/-- Claim C5 witness: concrete instance of `tenantInvalidation_amended` for
tenants `"t1"` and `"t2"` (neither a prefix of the other), with the surviving
key of tenant `"t2"` carrying `page`/`search` kwargs as the repository's
`template_portals` keys do. -/
theorem tenantInvalidation_amended_witness :
    makeKey "portals" "tpl7" (some "t1") [("page", some "1")] ∉
      invalidateTenantCache
        [makeKey "portals" "tpl7" (some "t2") [("page", some "1"), ("search", some "x")]]
        "t1" ∧
    makeKey "portals" "tpl7" (some "t2") [("page", some "1"), ("search", some "x")] ∈
      invalidateTenantCache
        [makeKey "portals" "tpl7" (some "t2") [("page", some "1"), ("search", some "x")]]
        "t1" := by
  obtain ⟨h1, h2⟩ := tenantInvalidation_amended "portals" "tpl7" "t1" "t2"
    [makeKey "portals" "tpl7" (some "t2") [("page", some "1"), ("search", some "x")]]
    [("page", some "1")] [("page", some "1"), ("search", some "x")]
    (by decide) (by decide) (by decide) (by decide) (by decide) (by decide) (by decide)
    (by
      intro kv hkv
      simp only [List.mem_cons, List.not_mem_nil, or_false] at hkv
      rcases hkv with rfl | rfl
      · refine ⟨by decide, by decide, ?_⟩
        intro v hv
        rw [Option.some.injEq] at hv
        subst hv
        exact ⟨by decide, by decide⟩
      · refine ⟨by decide, by decide, ?_⟩
        intro v hv
        rw [Option.some.injEq] at hv
        subst hv
        exact ⟨by decide, by decide⟩)
    (by unfold redisPlain; decide)
    (by rw [← List.isPrefixOf_iff_prefix]; decide)
  exact ⟨h1, h2 (List.mem_singleton.mpr rfl)⟩

/-- Claim C3 witness: concrete instances of
`circuitBreaker_cooldown_gates_reset` for a breaker opened at time 0, probed
at time 30 (within cooldown) and at time 60 (cooldown elapsed). -/
theorem circuitBreaker_cooldown_witness :
    getClientStep ⟨10, true, 0⟩ 30 .success = (.degraded, ⟨10, true, 0⟩) ∧
    (getClientStep ⟨10, true, 0⟩ 60 .success).1 = .pooled ∧
    (getClientStep ⟨10, true, 0⟩ 60 .success).2.circuitBreakerOpen = false := by
  refine ⟨(circuitBreaker_cooldown_gates_reset ⟨10, true, 0⟩ 30 .success rfl).1
    (by decide), ?_, ?_⟩
  · exact ((circuitBreaker_cooldown_gates_reset ⟨10, true, 0⟩ 60 .success rfl).2
      (by decide)).1
  · exact ((circuitBreaker_cooldown_gates_reset ⟨10, true, 0⟩ 60 .success rfl).2
      (by decide)).2.2

